import Mathlib

/-!
Verification development for the f1_olap repository.

The analytical core of the repository is embedded shallowly:

* `corner_speed.py` (`get_session_corner_analysis`): per-corner windowed
  average speeds for the two drivers VER and NOR;
* `olap.py` (`F1OLAPAnalysis`): slice / dice / drill-down / roll-up / pivot
  operations over the relational snapshot;
* `team_rank.py`: best standard-competition rank per team.

SQLite REAL columns (distances, speeds) are modelled as rationals, INTEGER
columns as naturals or `Option` of naturals where the loader can insert NULL,
and TEXT dates as naturals ordered like their ISO-8601 strings.  SQL rows are
lists of records, queries are filters/joins/sorts on those lists, and Python
exceptions are an `Except` result.
-/

/-- One telemetry sample as fetched by `get_session_corner_analysis`:
the query projects `SELECT speed, distance FROM telemetry` (REAL columns,
modelled as rationals). -/
structure Sample where
  dist : ℚ
  speed : ℚ
deriving DecidableEq

/-- One corner row as fetched by `get_session_corner_analysis`:
`SELECT number, distance FROM corners WHERE circuit_id = ? ORDER BY distance ASC`. -/
structure Corner where
  num : ℕ
  dist : ℚ
deriving DecidableEq

/-- The pandas boolean mask of `corner_speed.py` lines 107-115:
`(distance >= corner_dist - threshold) & (distance <= corner_dist + threshold)`. -/
def inWindow (d W : ℚ) (s : Sample) : Bool :=
  decide (d - W ≤ s.dist) && decide (s.dist ≤ d + W)

/-- `segment['speed'].mean() if len(segment) > 0 else None`
(`corner_speed.py` lines 118-119): arithmetic mean of a non-empty list,
`None` on an empty one. -/
def meanOpt (l : List ℚ) : Option ℚ :=
  if l.isEmpty then none else some (l.sum / l.length)

/-- The value computed for one corner and one driver by the loop body of
`get_session_corner_analysis`: mean speed of the samples passing `inWindow`. -/
def cornerMean (tel : List Sample) (d W : ℚ) : Option ℚ :=
  meanOpt ((tel.filter (inWindow d W)).map Sample.speed)

/-- Python dict assignment `m[k] = v`: overwrite an existing key in place,
otherwise append the new binding. -/
def dictUpsert {κ α : Type} [BEq κ] (m : List (κ × α)) (k : κ) (v : α) : List (κ × α) :=
  if m.any (fun p => p.1 == k) then
    m.map (fun p => if p.1 == k then (k, v) else p)
  else
    m ++ [(k, v)]

/-- Python dict read `m[k]` (first binding with the key). -/
def lookupD {κ α : Type} [BEq κ] (m : List (κ × α)) (k : κ) : Option α :=
  (m.find? (fun p => p.1 == k)).map (fun p => p.2)

/-- The `avg_corner_speeds` dict built by `get_session_corner_analysis`
(lines 99-120): for each corner, the pair of VER's and NOR's window means,
keyed by the corner's number (`distance_threshold = 20`). -/
def avgCornerSpeeds (corners : List Corner) (telV telN : List Sample) :
    List (ℕ × (Option ℚ × Option ℚ)) :=
  corners.foldl
    (fun m c => dictUpsert m c.num (cornerMean telV c.dist 20, cornerMean telN c.dist 20)) []

/-- Spec-side window: exactly the samples whose distance lies in the closed
interval `[d - W, d + W]` (written from the spec's wording, to be compared
with the code's `inWindow` mask). -/
def windowSpec (tel : List Sample) (d W : ℚ) : List Sample :=
  tel.filter (fun s => decide (d - W ≤ s.dist ∧ s.dist ≤ d + W))

/-- Spec-side per-corner mean: arithmetic mean of `speed` over `windowSpec`. -/
def meanSpec (tel : List Sample) (d W : ℚ) : Option ℚ :=
  meanOpt ((windowSpec tel d W).map Sample.speed)

lemma cornerMean_eq_meanSpec (tel : List Sample) (d W : ℚ) :
    cornerMean tel d W = meanSpec tel d W := by
  unfold cornerMean meanSpec windowSpec
  congr 1
  congr 1
  apply List.filter_congr
  intro s _
  rcases Decidable.em (d - W ≤ s.dist) with h1 | h1 <;>
    rcases Decidable.em (s.dist ≤ d + W) with h2 | h2 <;>
      simp [inWindow, h1, h2]

lemma mem_windowSpec (tel : List Sample) (d W : ℚ) (s : Sample) :
    s ∈ windowSpec tel d W ↔ s ∈ tel ∧ d - W ≤ s.dist ∧ s.dist ≤ d + W := by
  simp [windowSpec, List.mem_filter]

lemma meanOpt_eq_none_iff (l : List ℚ) : meanOpt l = none ↔ l = [] := by
  rcases l with _ | ⟨a, t⟩ <;> simp [meanOpt]

lemma dictUpsert_fresh {κ α : Type} [BEq κ] [LawfulBEq κ] (m : List (κ × α)) (k : κ) (v : α)
    (h : ∀ p ∈ m, p.1 ≠ k) : dictUpsert m k v = m ++ [(k, v)] := by
  have hany : m.any (fun p => p.1 == k) = false := by
    rw [List.any_eq_false]
    intro p hp
    simpa using h p hp
  simp [dictUpsert, hany]

lemma foldl_dictUpsert_eq_append {κ β α : Type} [BEq κ] [LawfulBEq κ]
    (key : β → κ) (f : β → α) :
    ∀ (cs : List β) (m : List (κ × α)),
    (cs.map key).Nodup →
    (∀ c ∈ cs, ∀ p ∈ m, p.1 ≠ key c) →
    cs.foldl (fun acc c => dictUpsert acc (key c) (f c)) m
      = m ++ cs.map (fun c => (key c, f c)) := by
  intro cs
  induction cs with
  | nil => intro m _ _; simp
  | cons c cs ih =>
    intro m hnd hf
    have hnd' : key c ∉ cs.map key ∧ (cs.map key).Nodup := by
      simpa [List.nodup_cons] using hnd
    simp only [List.foldl_cons, List.map_cons]
    rw [dictUpsert_fresh m (key c) (f c) (fun p hp => hf c (List.mem_cons_self c cs) p hp)]
    rw [ih (m ++ [(key c, f c)]) hnd'.2 ?_]
    · simp
    · intro c' hc' p hp
      rcases List.mem_append.mp hp with hm | hs
      · exact hf c' (List.mem_cons_of_mem _ hc') p hm
      · have hpv : p = (key c, f c) := by simpa using hs
        subst hpv
        intro hEq
        have hEq' : key c = key c' := hEq
        exact hnd'.1 (by rw [hEq']; exact List.mem_map_of_mem key hc')

lemma lookupD_map_self {κ β α : Type} [BEq κ] [LawfulBEq κ] (key : β → κ) (f : β → α) :
    ∀ (cs : List β), (cs.map key).Nodup →
    ∀ c ∈ cs, lookupD (cs.map (fun c => (key c, f c))) (key c) = some (f c) := by
  intro cs
  induction cs with
  | nil => intro _ c hc; simp at hc
  | cons a cs ih =>
    intro hnd c hc
    have hnd' : key a ∉ cs.map key ∧ (cs.map key).Nodup := by
      simpa [List.nodup_cons] using hnd
    rcases List.mem_cons.mp hc with rfl | hmem
    · simp [lookupD, List.find?]
    · have hne : (key a == key c) = false := by
        refine beq_eq_false_iff_ne.mpr ?_
        intro hEq
        exact hnd'.1 (by rw [hEq]; exact List.mem_map_of_mem key hmem)
      have hih := ih hnd'.2 c hmem
      simpa [lookupD, List.find?_cons, hne] using hih

lemma avgCornerSpeeds_eq_map (corners : List Corner) (telV telN : List Sample)
    (hnd : (corners.map Corner.num).Nodup) :
    avgCornerSpeeds corners telV telN
      = corners.map (fun c => (c.num, (cornerMean telV c.dist 20, cornerMean telN c.dist 20))) := by
  unfold avgCornerSpeeds
  have h := foldl_dictUpsert_eq_append Corner.num
    (fun c => (cornerMean telV c.dist 20, cornerMean telN c.dist 20)) corners [] hnd (by simp)
  simpa using h

/-- C1: for every corner (under the engine's implicit assumption that corner
numbers identify corners uniquely), the per-driver mean stored under that
corner's number is the arithmetic mean of `speed` over exactly the telemetry
samples of that driver's chosen lap whose distance lies in the closed interval
`[d - 20, d + 20]`; both endpoints are included and no sample outside the
interval contributes. -/
theorem c1_corner_mean_exact_window
    (corners : List Corner) (telV telN : List Sample)
    (hnd : (corners.map Corner.num).Nodup) :
    ∀ c ∈ corners,
      lookupD (avgCornerSpeeds corners telV telN) c.num
        = some (meanSpec telV c.dist 20, meanSpec telN c.dist 20)
      ∧ ∀ (tel : List Sample) (s : Sample),
          s ∈ windowSpec tel c.dist 20
            ↔ s ∈ tel ∧ c.dist - 20 ≤ s.dist ∧ s.dist ≤ c.dist + 20 := by
  intro c hc
  constructor
  · rw [avgCornerSpeeds_eq_map corners telV telN hnd]
    have h := lookupD_map_self Corner.num
      (fun c => (cornerMean telV c.dist 20, cornerMean telN c.dist 20)) corners hnd c hc
    simpa [cornerMean_eq_meanSpec] using h
  · intro tel s
    exact mem_windowSpec tel c.dist 20 s

/-- Witness for C1: a single corner at distance 100; samples at distances 80
and 120 (exactly the window endpoints) are included in the mean, samples at
79 and 121 are excluded, giving mean (200 + 100) / 2 = 150; the empty
telemetry of the other driver gives the absent value. -/
theorem c1_corner_mean_exact_window_witness :
    (([⟨1, 100⟩] : List Corner).map Corner.num).Nodup
    ∧ (⟨1, 100⟩ : Corner) ∈ ([⟨1, 100⟩] : List Corner)
    ∧ lookupD (avgCornerSpeeds [⟨1, 100⟩]
        [⟨79, 999⟩, ⟨80, 200⟩, ⟨120, 100⟩, ⟨121, 999⟩] []) 1
        = some (meanSpec [⟨79, 999⟩, ⟨80, 200⟩, ⟨120, 100⟩, ⟨121, 999⟩] 100 20,
                meanSpec [] 100 20)
    ∧ meanSpec [⟨79, 999⟩, ⟨80, 200⟩, ⟨120, 100⟩, ⟨121, 999⟩] 100 20 = some 150
    ∧ meanSpec [] 100 20 = none := by
  refine ⟨by decide, by decide, ?_, ?_, ?_⟩
  · exact ((c1_corner_mean_exact_window [⟨1, 100⟩]
      [⟨79, 999⟩, ⟨80, 200⟩, ⟨120, 100⟩, ⟨121, 999⟩] [] (by decide)) ⟨1, 100⟩ (by decide)).1
  · norm_num [meanSpec, windowSpec, meanOpt, List.filter]
  · norm_num [meanSpec, windowSpec, meanOpt, List.filter]

/-- Counterexample for C2: two corners that share the number 7 (corner
numbers repeat on real circuits, distinguished only by a letter the query
does not select).  The output dict holds one entry for the two corners, so it
does not contain one entry per corner, and the first corner's non-empty
window mean (180 at distance 100) is overwritten by the second corner's
absent pair. -/
theorem c2_counterexample :
    (avgCornerSpeeds [⟨7, 100⟩, ⟨7, 400⟩] [⟨100, 180⟩] []).length = 1
    ∧ ([⟨7, 100⟩, ⟨7, 400⟩] : List Corner).length = 2
    ∧ lookupD (avgCornerSpeeds [⟨7, 100⟩, ⟨7, 400⟩] [⟨100, 180⟩] []) 7
        = some (none, none)
    ∧ cornerMean [⟨100, 180⟩] 100 20 = some 180 := by
  refine ⟨?_, by decide, ?_, ?_⟩
  · norm_num [avgCornerSpeeds, dictUpsert, cornerMean, inWindow, meanOpt, List.filter]
  · norm_num [avgCornerSpeeds, dictUpsert, cornerMean, inWindow, meanOpt, List.filter,
      lookupD, List.find?]
  · norm_num [cornerMean, inWindow, meanOpt, List.filter]

/-- C2 (amended): for corners with pairwise-distinct numbers, the output dict
has exactly one entry per corner, every (corner, driver) entry is present,
and a driver's value at a corner is the absent value `none` exactly when zero
samples of that driver fall in the corner's window — never the number 0 and
never omitted. -/
theorem c2_no_data_entries_present
    (corners : List Corner) (telV telN : List Sample)
    (hnd : (corners.map Corner.num).Nodup) :
    (avgCornerSpeeds corners telV telN).length = corners.length
    ∧ ∀ c ∈ corners, ∃ vV vN : Option ℚ,
        lookupD (avgCornerSpeeds corners telV telN) c.num = some (vV, vN)
        ∧ (vV = none ↔ telV.filter (inWindow c.dist 20) = [])
        ∧ (vN = none ↔ telN.filter (inWindow c.dist 20) = []) := by
  constructor
  · rw [avgCornerSpeeds_eq_map corners telV telN hnd]
    simp
  · intro c hc
    refine ⟨cornerMean telV c.dist 20, cornerMean telN c.dist 20, ?_, ?_, ?_⟩
    · rw [avgCornerSpeeds_eq_map corners telV telN hnd]
      exact lookupD_map_self Corner.num
        (fun c => (cornerMean telV c.dist 20, cornerMean telN c.dist 20)) corners hnd c hc
    · rw [cornerMean, meanOpt_eq_none_iff, List.map_eq_nil_iff]
    · rw [cornerMean, meanOpt_eq_none_iff, List.map_eq_nil_iff]

/-- Witness for C2 (amended): two distinct-numbered corners; the corner at
distance 400 has zero samples in its window and its entry is present with the
absent value for both drivers. -/
theorem c2_no_data_entries_present_witness :
    (([⟨1, 100⟩, ⟨2, 400⟩] : List Corner).map Corner.num).Nodup
    ∧ (avgCornerSpeeds [⟨1, 100⟩, ⟨2, 400⟩] [⟨100, 180⟩] []).length = 2
    ∧ (⟨2, 400⟩ : Corner) ∈ ([⟨1, 100⟩, ⟨2, 400⟩] : List Corner)
    ∧ ∃ vV vN : Option ℚ,
        lookupD (avgCornerSpeeds [⟨1, 100⟩, ⟨2, 400⟩] [⟨100, 180⟩] []) 2 = some (vV, vN)
        ∧ (vV = none ↔ ([⟨100, 180⟩] : List Sample).filter (inWindow 400 20) = [])
        ∧ (vN = none ↔ ([] : List Sample).filter (inWindow 400 20) = []) := by
  refine ⟨by decide, ?_, by decide, ?_⟩
  · exact (c2_no_data_entries_present [⟨1, 100⟩, ⟨2, 400⟩] [⟨100, 180⟩] [] (by decide)).1
  · exact (c2_no_data_entries_present [⟨1, 100⟩, ⟨2, 400⟩] [⟨100, 180⟩] [] (by decide)).2
      ⟨2, 400⟩ (by decide)

/-- The brute-force per-corner window filter as the source performs it
(`corner_speed.py` lines 102-120, single-driver view): for each corner the
full telemetry frame is filtered afresh. -/
def bruteCornerMeans (corners : List Corner) (tel : List Sample) : List (ℕ × Option ℚ) :=
  corners.map (fun c => (c.num, cornerMean tel c.dist 20))

/-- Modelled from the spec: one pass of the two-pointer sliding-window sweep.
`win` holds the samples currently between the two pointers, `rest` the
samples beyond the high pointer.  For the corner at distance `d`, the high
pointer advances to admit the samples newly within `d + 20`, and the low
pointer advances past the samples now below `d - 20`; neither ever moves
backwards and no sample is re-scanned from the start. -/
def sweepAux : List Corner → List Sample → List Sample → List (ℕ × Option ℚ)
  | [], _, _ => []
  | c :: cs, win, rest =>
    let add := rest.takeWhile (fun s => decide (s.dist ≤ c.dist + 20))
    let rest' := rest.dropWhile (fun s => decide (s.dist ≤ c.dist + 20))
    let win' := (win ++ add).dropWhile (fun s => decide (s.dist < c.dist - 20))
    (c.num, meanOpt (win'.map Sample.speed)) :: sweepAux cs win' rest'

/-- Modelled from the spec: the two-pointer sliding-window sweep over
distance-sorted corners and telemetry. -/
def sweepCornerMeans (corners : List Corner) (tel : List Sample) : List (ℕ × Option ℚ) :=
  sweepAux corners [] tel

lemma sorted_takeWhile_eq_filter (p : Sample → Bool)
    (hp : ∀ a b : Sample, a.dist ≤ b.dist → p b = true → p a = true) :
    ∀ l : List Sample, List.Pairwise (fun a b : Sample => a.dist ≤ b.dist) l →
      l.takeWhile p = l.filter p := by
  intro l
  induction l with
  | nil => intro _; rfl
  | cons a t ih =>
    intro hs
    have h1 : ∀ b ∈ t, a.dist ≤ b.dist := (List.pairwise_cons.mp hs).1
    have h2 := (List.pairwise_cons.mp hs).2
    cases hpa : p a with
    | true => simp [List.takeWhile_cons, List.filter_cons, hpa, ih h2]
    | false =>
      have hnil : t.filter p = [] := by
        rw [List.filter_eq_nil_iff]
        intro b hb hpb
        have := hp a b (h1 b hb) hpb
        rw [hpa] at this
        exact Bool.false_ne_true this
      simp [List.takeWhile_cons, List.filter_cons, hpa, hnil]

lemma sorted_dropWhile_eq_filter (p : Sample → Bool)
    (hp : ∀ a b : Sample, a.dist ≤ b.dist → p b = true → p a = true) :
    ∀ l : List Sample, List.Pairwise (fun a b : Sample => a.dist ≤ b.dist) l →
      l.dropWhile p = l.filter (fun s => !(p s)) := by
  intro l
  induction l with
  | nil => intro _; rfl
  | cons a t ih =>
    intro hs
    have h1 : ∀ b ∈ t, a.dist ≤ b.dist := (List.pairwise_cons.mp hs).1
    have h2 := (List.pairwise_cons.mp hs).2
    cases hpa : p a with
    | true => simp [List.dropWhile_cons, List.filter_cons, hpa, ih h2]
    | false =>
      have hall : t.filter (fun s => !(p s)) = t := by
        rw [List.filter_eq_self]
        intro b hb
        cases hpb : p b with
        | true =>
          have := hp a b (h1 b hb) hpb
          rw [hpa] at this
          exact absurd this Bool.false_ne_true
        | false => simp
      simp [List.dropWhile_cons, List.filter_cons, hpa, hall]

lemma inWindow_eq_true_iff (d W : ℚ) (s : Sample) :
    inWindow d W s = true ↔ d - W ≤ s.dist ∧ s.dist ≤ d + W := by
  simp [inWindow]

lemma sweepAux_eq_brute :
    ∀ (corners : List Corner) (win rest : List Sample),
    List.Pairwise (fun a b : Sample => a.dist ≤ b.dist) (win ++ rest) →
    List.Pairwise (fun a b : Corner => a.dist ≤ b.dist) corners →
    (∀ c ∈ corners, ∀ s ∈ win, s.dist ≤ c.dist + 20) →
    sweepAux corners win rest
      = corners.map (fun c => (c.num, cornerMean (win ++ rest) c.dist 20)) := by
  intro corners
  induction corners with
  | nil => intro win rest _ _ _; rfl
  | cons c cs ih =>
    intro win rest hwr hcor hwin
    obtain ⟨hwinS, hrestS, hcross⟩ := List.pairwise_append.mp hwr
    obtain ⟨hhead, htail⟩ := List.pairwise_cons.mp hcor
    simp only [sweepAux, List.map_cons]
    set add := rest.takeWhile (fun s => decide (s.dist ≤ c.dist + 20)) with hadd
    set rest' := rest.dropWhile (fun s => decide (s.dist ≤ c.dist + 20)) with hrest'
    set win' := (win ++ add).dropWhile (fun s => decide (s.dist < c.dist - 20)) with hwin'
    have hsplit : add ++ rest' = rest := by
      rw [hadd, hrest']
      exact List.takeWhile_append_dropWhile _ rest
    have haddUB : ∀ s ∈ add, s.dist ≤ c.dist + 20 := by
      intro s hs
      rw [hadd] at hs
      have h := List.mem_takeWhile_imp hs
      simpa using h
    have hwaSub : List.Sublist (win ++ add) (win ++ rest) := by
      rw [hadd]
      exact (List.takeWhile_sublist _).append_left win
    have hwaS : List.Pairwise (fun a b : Sample => a.dist ≤ b.dist) (win ++ add) :=
      List.Pairwise.sublist hwaSub hwr
    have hwaUB : ∀ s ∈ win ++ add, s.dist ≤ c.dist + 20 := by
      intro s hs
      rcases List.mem_append.mp hs with h | h
      · exact hwin c (List.mem_cons_self c cs) s h
      · exact haddUB s h
    have hwinEq : win' = (win ++ add).filter (inWindow c.dist 20) := by
      rw [hwin',
        sorted_dropWhile_eq_filter (fun s => decide (s.dist < c.dist - 20))
          (by
            intro a b hab hb
            have hb' : b.dist < c.dist - 20 := of_decide_eq_true hb
            exact decide_eq_true (lt_of_le_of_lt hab hb'))
          (win ++ add) hwaS]
      apply List.filter_congr
      intro s hs
      rcases lt_or_le s.dist (c.dist - 20) with h | h
      · simp [inWindow, h, not_le.mpr h]
      · simp [inWindow, h, not_lt.mpr h, hwaUB s hs]
    have hrestHigh : ∀ s ∈ rest', ¬ (s.dist ≤ c.dist + 20) := by
      intro s hs
      rw [hrest',
        sorted_dropWhile_eq_filter (fun s => decide (s.dist ≤ c.dist + 20))
          (by
            intro a b hab hb
            exact decide_eq_true (le_trans hab (of_decide_eq_true hb)))
          rest hrestS] at hs
      have := (List.mem_filter.mp hs).2
      simpa using this
    have hfilterRest' : ∀ d W : ℚ, d + W ≤ c.dist + 20 →
        rest'.filter (inWindow d W) = [] := by
      intro d W hdw
      rw [List.filter_eq_nil_iff]
      intro s hs hwnd
      have h2 := ((inWindow_eq_true_iff d W s).mp hwnd).2
      exact hrestHigh s hs (le_trans h2 hdw)
    have hheadFilter : (win ++ rest).filter (inWindow c.dist 20) = win' := by
      rw [hwinEq]
      conv_lhs => rw [← hsplit]
      rw [← List.append_assoc, List.filter_append,
        hfilterRest' c.dist 20 (le_refl _), List.append_nil]
    have hwin'Win : ∀ s ∈ win', c.dist - 20 ≤ s.dist ∧ s.dist ≤ c.dist + 20 := by
      intro s hs
      rw [hwinEq] at hs
      exact (inWindow_eq_true_iff c.dist 20 s).mp (List.mem_filter.mp hs).2
    have hsub2 : List.Sublist (win' ++ rest') (win ++ rest) := by
      have h1 : List.Sublist win' (win ++ add) := by
        rw [hwinEq]; exact List.filter_sublist _
      have h2 : List.Sublist (win' ++ rest') ((win ++ add) ++ rest') := h1.append_right rest'
      rwa [List.append_assoc, hsplit] at h2
    have hwr2 : List.Pairwise (fun a b : Sample => a.dist ≤ b.dist) (win' ++ rest') :=
      List.Pairwise.sublist hsub2 hwr
    have hwin2 : ∀ c' ∈ cs, ∀ s ∈ win', s.dist ≤ c'.dist + 20 := by
      intro c' hc' s hs
      have h1 := (hwin'Win s hs).2
      have h2 := hhead c' hc'
      linarith
    rw [ih win' rest' hwr2 htail hwin2]
    congr 1
    · rw [cornerMean, hheadFilter]
    · apply List.map_congr_left
      intro c' hc'
      have hcle : c.dist ≤ c'.dist := hhead c' hc'
      have hmain : (win' ++ rest').filter (inWindow c'.dist 20)
          = (win ++ rest).filter (inWindow c'.dist 20) := by
        conv_rhs => rw [← hsplit]
        rw [List.filter_append, ← List.append_assoc, List.filter_append]
        congr 1
        rw [hwinEq, List.filter_filter]
        apply List.filter_congr
        intro s hs
        cases hcw : inWindow c'.dist 20 s with
        | false => simp
        | true =>
          have h1 := (inWindow_eq_true_iff c'.dist 20 s).mp hcw
          have h3 : inWindow c.dist 20 s = true := by
            rw [inWindow_eq_true_iff]
            constructor
            · linarith [h1.1]
            · exact hwaUB s hs
          simp [h3]
      rw [cornerMean, cornerMean, hmain]

/-- Modelled from the spec: equivalence target of the sweep.  The sweep over
distance-sorted inputs computes the same per-corner means as the source's
brute-force per-corner filter. -/
theorem sweep_eq_brute_of_sorted
    (corners : List Corner) (tel : List Sample)
    (htel : List.Pairwise (fun a b : Sample => a.dist ≤ b.dist) tel)
    (hcor : List.Pairwise (fun a b : Corner => a.dist ≤ b.dist) corners) :
    sweepCornerMeans corners tel = bruteCornerMeans corners tel := by
  unfold sweepCornerMeans bruteCornerMeans
  have h := sweepAux_eq_brute corners [] tel (by simpa using htel) hcor (by simp)
  simpa using h

/-- Instrumented pandas row filter: the filtered rows together with the
number of rows examined — a boolean mask such as the one on
`corner_speed.py` lines 107-110 is evaluated on every row of the frame. -/
def filterExamined (p : Sample → Bool) : List Sample → List Sample × ℕ
  | [] => ([], 0)
  | s :: t =>
    let r := filterExamined p t
    (if p s then s :: r.1 else r.1, r.2 + 1)

/-- Instrumented source loop: the per-corner means together with the total
number of telemetry rows examined over all corners.  The source re-filters
the full telemetry frame for every corner, starting from its first row. -/
def bruteCornerMeansExamined (corners : List Corner) (tel : List Sample) :
    List (ℕ × Option ℚ) × ℕ :=
  match corners with
  | [] => ([], 0)
  | c :: cs =>
    let seg := filterExamined (inWindow c.dist 20) tel
    let more := bruteCornerMeansExamined cs tel
    ((c.num, meanOpt (seg.1.map Sample.speed)) :: more.1, seg.2 + more.2)

lemma filterExamined_eq (p : Sample → Bool) :
    ∀ l : List Sample, filterExamined p l = (l.filter p, l.length) := by
  intro l
  induction l with
  | nil => rfl
  | cons s t ih => simp [filterExamined, ih, List.filter_cons]

lemma bruteCornerMeansExamined_fst (corners : List Corner) (tel : List Sample) :
    (bruteCornerMeansExamined corners tel).1 = bruteCornerMeans corners tel := by
  induction corners with
  | nil => rfl
  | cons c cs ih =>
    simp [bruteCornerMeansExamined, ih, filterExamined_eq, bruteCornerMeans, cornerMean]

/-- The source's total examination count is the full product
corners × samples: every corner's mask scans every telemetry row. -/
lemma bruteCornerMeansExamined_count (corners : List Corner) (tel : List Sample) :
    (bruteCornerMeansExamined corners tel).2 = corners.length * tel.length := by
  induction corners with
  | nil => simp [bruteCornerMeansExamined]
  | cons c cs ih =>
    simp [bruteCornerMeansExamined, ih, filterExamined_eq, List.length_cons, Nat.succ_mul,
      Nat.add_comm]

/-- Fixture for C3: five distance-sorted corners. -/
def c3corners : List Corner := [⟨1, 100⟩, ⟨2, 200⟩, ⟨3, 300⟩, ⟨4, 400⟩, ⟨5, 500⟩]

/-- Fixture for C3: twelve distance-sorted telemetry samples. -/
def c3tel : List Sample :=
  [⟨40, 1⟩, ⟨90, 2⟩, ⟨110, 3⟩, ⟨150, 4⟩, ⟨205, 5⟩, ⟨260, 6⟩,
   ⟨310, 7⟩, ⟨350, 8⟩, ⟨390, 9⟩, ⟨410, 10⟩, ⟨490, 11⟩, ⟨505, 12⟩]

/-- Counterexample for C3: the source's per-corner filtering examines
5 × 12 = 60 telemetry rows on this input, exceeding the bound
corners + 2·samples = 29 that a sweep whose two pointers only ever advance
(one stopping test per corner per pointer, each pointer passing each sample
at most once) cannot exceed; the engine re-scans the telemetry from the
start for every corner instead of sliding a window. -/
theorem c3_counterexample :
    (bruteCornerMeansExamined c3corners c3tel).2 = 60
    ∧ c3corners.length + 2 * c3tel.length = 29
    ∧ ¬ ((bruteCornerMeansExamined c3corners c3tel).2
          ≤ c3corners.length + 2 * c3tel.length)
    ∧ (bruteCornerMeansExamined c3corners c3tel).1 = bruteCornerMeans c3corners c3tel := by
  have hc : (bruteCornerMeansExamined c3corners c3tel).2 = 60 := by
    rw [bruteCornerMeansExamined_count]
    rfl
  refine ⟨hc, by rfl, ?_, bruteCornerMeansExamined_fst c3corners c3tel⟩
  rw [hc]
  decide

/-- C3 (amended): the source computes its per-corner means by the
brute-force per-corner window filter `bruteCornerMeans`; the spec's
two-pointer sliding-window sweep produces results identical to that
brute-force filter on every distance-sorted corner list and telemetry
sequence. -/
theorem c3_sweep_equivalence
    (corners : List Corner) (tel : List Sample)
    (htel : List.Pairwise (fun a b : Sample => a.dist ≤ b.dist) tel)
    (hcor : List.Pairwise (fun a b : Corner => a.dist ≤ b.dist) corners) :
    sweepCornerMeans corners tel = bruteCornerMeans corners tel :=
  sweep_eq_brute_of_sorted corners tel htel hcor

/-- Witness for C3 (amended) at the sorted fixtures. -/
theorem c3_sweep_equivalence_witness :
    List.Pairwise (fun a b : Sample => a.dist ≤ b.dist) c3tel
    ∧ List.Pairwise (fun a b : Corner => a.dist ≤ b.dist) c3corners
    ∧ sweepCornerMeans c3corners c3tel = bruteCornerMeans c3corners c3tel :=
  ⟨by decide, by decide, c3_sweep_equivalence c3corners c3tel (by decide) (by decide)⟩

/-- Lowercase an ASCII letter; other characters unchanged. -/
def lowerChar (c : Char) : Char :=
  if 65 ≤ c.toNat ∧ c.toNat ≤ 90 then Char.ofNat (c.toNat + 32) else c

/-- Does the second character list start with the first? -/
def startsWithL : List Char → List Char → Bool
  | [], _ => true
  | _ :: _, [] => false
  | a :: as, b :: bs => a == b && startsWithL as bs

/-- Does the first character list occur contiguously in the second? -/
def subListAt : List Char → List Char → Bool
  | pat, [] => startsWithL pat []
  | pat, c :: t => startsWithL pat (c :: t) || subListAt pat t

/-- SQLite `text LIKE '%pat%'` with the default ASCII case-insensitive
collation: substring containment after lowercasing. -/
def sqlLike (text pat : String) : Bool :=
  subListAt (pat.data.map lowerChar) (text.data.map lowerChar)

/-- SQLite `strftime('%Y', date) = str(year)`: the loader stores ISO-8601
TEXT dates, modelled as `yyyymmdd` naturals (byte order of the TEXT and
numeric order of the model agree); NULL dates match no year. -/
def strftimeYearMatch (d : Option ℕ) (y : ℕ) : Bool :=
  match d with
  | none => false
  | some v => v / 10000 == y

/-- A row of `sessions`: id, event_name, session_name, date (nullable),
circuit_id. -/
structure SessionRow where
  id : ℕ
  eventName : String
  sessionName : String
  date : Option ℕ
  circuitId : ℕ
deriving DecidableEq

/-- A row of `circuits` (columns beyond id and name are not consumed by the
analytical core). -/
structure CircuitRow where
  id : ℕ
  name : String
deriving DecidableEq

/-- A row of `drivers` (the source spells the column `abbrevation`). -/
structure DriverRow where
  id : ℕ
  abbrevation : String
  firstName : String
  lastName : String
deriving DecidableEq

/-- A row of `teams`. -/
structure TeamRow where
  id : ℕ
  name : String
deriving DecidableEq

/-- A row of `results`: the loader can leave position, grid_position and
laps NULL; points is always an integer (default 0). -/
structure ResultRow where
  sessionId : ℕ
  driverId : ℕ
  teamId : ℕ
  position : Option ℕ
  gridPosition : Option ℕ
  points : ℕ
  laps : Option ℕ
  status : String
deriving DecidableEq

/-- A row of `laps`: lap_time is stored as TEXT (NULL when missing) and is
only ever used as an ORDER BY key, so it is modelled as an ordered rational
key; presentation-only columns (sector times, compound, ...) are omitted as
no claim mentions them. -/
structure LapRow where
  id : ℕ
  sessionId : ℕ
  driverId : ℕ
  lapNumber : Option ℕ
  lapTime : Option ℚ
deriving DecidableEq

/-- A row of `telemetry`: the lap it belongs to and the two channels the
analytical core consumes. -/
structure TelemetryRow where
  lapId : ℕ
  dist : ℚ
  speed : ℚ
deriving DecidableEq

/-- A row of `corners`. -/
structure CornerRow where
  circuitId : ℕ
  number : ℕ
  dist : ℚ
deriving DecidableEq

/-- The read-only relational snapshot. -/
structure DB where
  sessions : List SessionRow
  circuits : List CircuitRow
  drivers : List DriverRow
  teams : List TeamRow
  results : List ResultRow
  laps : List LapRow
  telemetry : List TelemetryRow
  corners : List CornerRow
deriving DecidableEq

/-- A joined results row: the result with its session/driver/team context
(and circuit name when the query also joins `circuits`).  Each SQL query
projects a subset of these columns; projection affects neither row
multiplicity nor row order, so the order claims are stated on the joined
records. -/
structure JRow where
  eventName : String
  sessionName : String
  date : Option ℕ
  circuitName : String
  driver : String
  driverFirst : String
  driverLast : String
  team : String
  position : Option ℕ
  gridPosition : Option ℕ
  points : ℕ
  laps : Option ℕ
  status : String
  sessionId : ℕ
  driverId : ℕ
  teamId : ℕ
deriving DecidableEq

/-- `results JOIN sessions JOIN drivers JOIN teams` (queries that do not
join `circuits` leave `circuitName` empty; none of them selects it). -/
def joinRSDT (db : DB) : List JRow :=
  db.results.flatMap (fun r =>
    (db.sessions.filter (fun s => s.id == r.sessionId)).flatMap (fun s =>
      (db.drivers.filter (fun d => d.id == r.driverId)).flatMap (fun d =>
        (db.teams.filter (fun t => t.id == r.teamId)).map (fun t =>
          ⟨s.eventName, s.sessionName, s.date, "", d.abbrevation,
           d.firstName, d.lastName, t.name,
           r.position, r.gridPosition, r.points, r.laps, r.status,
           r.sessionId, r.driverId, r.teamId⟩))))

/-- `results JOIN sessions JOIN drivers JOIN teams JOIN circuits`. -/
def joinRSDTC (db : DB) : List JRow :=
  db.results.flatMap (fun r =>
    (db.sessions.filter (fun s => s.id == r.sessionId)).flatMap (fun s =>
      (db.drivers.filter (fun d => d.id == r.driverId)).flatMap (fun d =>
        (db.teams.filter (fun t => t.id == r.teamId)).flatMap (fun t =>
          (db.circuits.filter (fun c => c.id == s.circuitId)).map (fun c =>
            ⟨s.eventName, s.sessionName, s.date, c.name, d.abbrevation,
             d.firstName, d.lastName, t.name,
             r.position, r.gridPosition, r.points, r.laps, r.status,
             r.sessionId, r.driverId, r.teamId⟩)))))

/-- SQLite `ORDER BY date DESC` on a nullable column: NULL sorts as the
smallest value, hence last under DESC. -/
def dateDescB : Option ℕ → Option ℕ → Bool
  | _, none => true
  | none, some _ => false
  | some a, some b => decide (b ≤ a)

/-- SQLite `ORDER BY x ASC` on a nullable column: NULL sorts first. -/
def ascNullsFirstB : Option ℕ → Option ℕ → Bool
  | none, _ => true
  | some _, none => false
  | some a, some b => decide (a ≤ b)

/-- Session-date-descending order on joined rows. -/
def jDateDesc (a b : JRow) : Prop := dateDescB a.date b.date = true

/-- Finishing-position-ascending order on joined rows. -/
def jPosAsc (a b : JRow) : Prop := ascNullsFirstB a.position b.position = true

instance : DecidableRel jDateDesc := fun a b =>
  inferInstanceAs (Decidable (dateDescB a.date b.date = true))

instance : DecidableRel jPosAsc := fun a b =>
  inferInstanceAs (Decidable (ascNullsFirstB a.position b.position = true))

lemma dateDescB_total (x y : Option ℕ) : dateDescB x y = true ∨ dateDescB y x = true := by
  rcases x with _ | a <;> rcases y with _ | b <;> simp [dateDescB]
  omega

lemma dateDescB_trans (x y z : Option ℕ) (h1 : dateDescB x y = true)
    (h2 : dateDescB y z = true) : dateDescB x z = true := by
  rcases x with _ | a <;> rcases y with _ | b <;> rcases z with _ | c <;>
    simp_all [dateDescB]
  omega

lemma ascNullsFirstB_total (x y : Option ℕ) :
    ascNullsFirstB x y = true ∨ ascNullsFirstB y x = true := by
  rcases x with _ | a <;> rcases y with _ | b <;> simp [ascNullsFirstB]
  omega

lemma ascNullsFirstB_trans (x y z : Option ℕ) (h1 : ascNullsFirstB x y = true)
    (h2 : ascNullsFirstB y z = true) : ascNullsFirstB x z = true := by
  rcases x with _ | a <;> rcases y with _ | b <;> rcases z with _ | c <;>
    simp_all [ascNullsFirstB]
  omega

instance : IsTotal JRow jDateDesc :=
  ⟨fun a b => dateDescB_total a.date b.date⟩

instance : IsTrans JRow jDateDesc :=
  ⟨fun a b c hab hbc => dateDescB_trans a.date b.date c.date hab hbc⟩

instance : IsTotal JRow jPosAsc :=
  ⟨fun a b => ascNullsFirstB_total a.position b.position⟩

instance : IsTrans JRow jPosAsc :=
  ⟨fun a b c hab hbc => ascNullsFirstB_trans a.position b.position c.position hab hbc⟩

/-- `slice_by_driver` (olap.py 23-59): note Python's `if year:` is false for
both None and 0, so a year of 0 adds no year filter. -/
def sliceByDriver (db : DB) (driverAbbrev : String) (year : Option ℕ) : List JRow :=
  List.insertionSort jDateDesc
    ((joinRSDT db).filter (fun r =>
      r.driver == driverAbbrev &&
      (match year with
       | none => true
       | some y => if y = 0 then true else strftimeYearMatch r.date y)))

/-- `slice_by_circuit` (olap.py 61-89). -/
def sliceByCircuit (db : DB) (circuitName : String) : List JRow :=
  List.insertionSort jDateDesc
    ((joinRSDTC db).filter (fun r => sqlLike r.circuitName circuitName))

/-- `slice_by_year` (olap.py 91-117). -/
def sliceByYear (db : DB) (year : ℕ) : List JRow :=
  List.insertionSort jDateDesc
    ((joinRSDT db).filter (fun r => strftimeYearMatch r.date year))

/-- `dice_driver_circuit_year` (olap.py 122-155). -/
def diceDriverCircuitYear (db : DB) (driverAbbrev circuitName : String) (year : ℕ) :
    List JRow :=
  List.insertionSort jDateDesc
    ((joinRSDTC db).filter (fun r =>
      r.driver == driverAbbrev && sqlLike r.circuitName circuitName &&
        strftimeYearMatch r.date year))

/-- `dice_drivers_session` (olap.py 157-191): ordered by `r.position ASC`,
not by date. -/
def diceDriversSession (db : DB) (driverAbbrevs : List String) (eventName sessionType : String) :
    List JRow :=
  List.insertionSort jPosAsc
    ((joinRSDT db).filter (fun r =>
      driverAbbrevs.contains r.driver && sqlLike r.eventName eventName &&
        sqlLike r.sessionName sessionType))

/-- C6 (amended): the three slice operations and the driver x circuit x year
dice return their joined rows ordered by session date descending, but the
drivers x session dice returns its rows ordered by finishing position
ascending, not by date. -/
theorem c6_slice_dice_row_order
    (db : DB) (ab cn : String) (y : ℕ) (yo : Option ℕ)
    (abbrevs : List String) (ev st : String) :
    List.Sorted jDateDesc (sliceByDriver db ab yo)
    ∧ List.Sorted jDateDesc (sliceByCircuit db cn)
    ∧ List.Sorted jDateDesc (sliceByYear db y)
    ∧ List.Sorted jDateDesc (diceDriverCircuitYear db ab cn y)
    ∧ List.Sorted jPosAsc (diceDriversSession db abbrevs ev st) :=
  ⟨List.sorted_insertionSort jDateDesc _, List.sorted_insertionSort jDateDesc _,
   List.sorted_insertionSort jDateDesc _, List.sorted_insertionSort jDateDesc _,
   List.sorted_insertionSort jPosAsc _⟩

/-- Fixture for C6: one driver with two results, the later session date
carrying the worse finishing position. -/
def c6db : DB where
  sessions := [⟨1, "GP1", "Race", some 20250105, 1⟩, ⟨2, "GP2", "Race", some 20240106, 1⟩]
  circuits := [⟨1, "X"⟩]
  drivers := [⟨1, "VER", "Max", "Verstappen"⟩]
  teams := [⟨1, "Red Bull Racing"⟩]
  results := [⟨1, 1, 1, some 2, some 1, 18, some 50, "Finished"⟩,
              ⟨2, 1, 1, some 1, some 1, 25, some 50, "Finished"⟩]
  laps := []
  telemetry := []
  corners := []

/-- Counterexample for C6: the drivers x session dice orders by position
ascending, so the row from the 2024-01-06 session (position 1) precedes the
row from the 2025-01-05 session (position 2) — the result is not ordered by
session date descending. -/
theorem c6_counterexample :
    (diceDriversSession c6db ["VER"] "GP" "R").map JRow.date
      = [some 20240106, some 20250105]
    ∧ ¬ List.Sorted jDateDesc (diceDriversSession c6db ["VER"] "GP" "R") := by
  constructor
  · decide
  · decide

/-- Laps drill-down row (`drill_down_to_laps`, olap.py 196-230):
`laps JOIN sessions JOIN drivers`; presentation-only lap columns are
omitted, the ORDER BY key `lap_number` and the filter columns are kept. -/
structure LapJRow where
  eventName : String
  sessionName : String
  driver : String
  lapNumber : Option ℕ
  lapTime : Option ℚ
deriving DecidableEq

/-- Lap-number-ascending order (SQLite ASC, NULLs first). -/
def ljLapAsc (a b : LapJRow) : Prop := ascNullsFirstB a.lapNumber b.lapNumber = true

instance : DecidableRel ljLapAsc := fun a b =>
  inferInstanceAs (Decidable (ascNullsFirstB a.lapNumber b.lapNumber = true))

instance : IsTotal LapJRow ljLapAsc :=
  ⟨fun a b => ascNullsFirstB_total a.lapNumber b.lapNumber⟩

instance : IsTrans LapJRow ljLapAsc :=
  ⟨fun a b c hab hbc => ascNullsFirstB_trans a.lapNumber b.lapNumber c.lapNumber hab hbc⟩

/-- Telemetry drill-down row (`drill_down_to_telemetry`, olap.py 232-268):
the two channels the claims mention; the remaining selected channels do not
affect row multiplicity or order. -/
structure TelJRow where
  dist : ℚ
  speed : ℚ
deriving DecidableEq

/-- Distance-ascending order on telemetry drill-down rows. -/
def tjDistAsc (a b : TelJRow) : Prop := a.dist ≤ b.dist

instance : DecidableRel tjDistAsc := fun a b =>
  inferInstanceAs (Decidable (a.dist ≤ b.dist))

instance : IsTotal TelJRow tjDistAsc := ⟨fun a b => le_total a.dist b.dist⟩

instance : IsTrans TelJRow tjDistAsc := ⟨fun _ _ _ h h' => le_trans h h'⟩

/-- `drill_down_to_laps` (olap.py 196-230): the WHERE conditions are pushed
into the joins they constrain, which preserves the joined bag of rows. -/
def drillDownToLaps (db : DB) (ab ev st : String) : List LapJRow :=
  List.insertionSort ljLapAsc
    (db.laps.flatMap (fun l =>
      (db.sessions.filter (fun s =>
          s.id == l.sessionId && sqlLike s.eventName ev && sqlLike s.sessionName st)).flatMap
        (fun s =>
          (db.drivers.filter (fun d => d.id == l.driverId && d.abbrevation == ab)).map
            (fun d =>
              (⟨s.eventName, s.sessionName, d.abbrevation, l.lapNumber, l.lapTime⟩ : LapJRow)))))

/-- `drill_down_to_telemetry` (olap.py 232-268). -/
def drillDownToTelemetry (db : DB) (ab ev st : String) (lapNumber : ℕ) : List TelJRow :=
  List.insertionSort tjDistAsc
    (db.telemetry.flatMap (fun tr =>
      (db.laps.filter (fun l => l.id == tr.lapId && l.lapNumber == some lapNumber)).flatMap
        (fun l =>
          (db.sessions.filter (fun s =>
              s.id == l.sessionId && sqlLike s.eventName ev && sqlLike s.sessionName st)).flatMap
            (fun s =>
              (db.drivers.filter (fun d => d.id == l.driverId && d.abbrevation == ab)).map
                (fun d => (⟨tr.dist, tr.speed⟩ : TelJRow))))))

/-- The coarser-grain parent rows a drill-down descends from: the
(session, driver) pairs matching the dice-style filter. -/
def parentSD (db : DB) (ab ev st : String) : List (SessionRow × DriverRow) :=
  (db.sessions.filter (fun s => sqlLike s.eventName ev && sqlLike s.sessionName st)).flatMap
    (fun s => (db.drivers.filter (fun d => d.abbrevation == ab)).map (fun d => (s, d)))

lemma mem_parentSD (db : DB) (ab ev st : String) (s : SessionRow) (d : DriverRow) :
    (s, d) ∈ parentSD db ab ev st
      ↔ s ∈ db.sessions ∧ d ∈ db.drivers
        ∧ sqlLike s.eventName ev = true ∧ sqlLike s.sessionName st = true
        ∧ d.abbrevation = ab := by
  simp only [parentSD, List.mem_flatMap, List.mem_filter, List.mem_map, Bool.and_eq_true]
  constructor
  · rintro ⟨s', ⟨hs', hev, hst⟩, d', ⟨hd', hab⟩, hEq⟩
    obtain ⟨h1, h2⟩ := Prod.mk.injEq .. ▸ hEq
    subst h1
    subst h2
    exact ⟨hs', hd', hev, hst, by simpa using hab⟩
  · rintro ⟨hs, hd, hev, hst, hab⟩
    exact ⟨s, ⟨hs, hev, hst⟩, d, ⟨hd, by simpa using hab⟩, rfl⟩

lemma insertionSort_eq_nil_iff {α : Type} (r : α → α → Prop) [DecidableRel r] (l : List α) :
    List.insertionSort r l = [] ↔ l = [] := by
  rw [← List.length_eq_zero, List.length_insertionSort, List.length_eq_zero]

/-- C7 (amended): a drill-down whose filter matches zero parent
(session, driver) rows returns the empty row list; no error is raised (the
embedded operations are total functions into row lists, mirroring the source,
which only ever returns the query result). -/
theorem c7_drill_down_empty_on_empty_filter
    (db : DB) (ab ev st : String) (lapNumber : ℕ)
    (h : parentSD db ab ev st = []) :
    drillDownToLaps db ab ev st = [] ∧ drillDownToTelemetry db ab ev st lapNumber = [] := by
  have hnosd : ∀ (s : SessionRow) (d : DriverRow),
      s ∈ db.sessions → d ∈ db.drivers →
      sqlLike s.eventName ev = true → sqlLike s.sessionName st = true →
      d.abbrevation = ab → False := by
    intro s d hs hd hev hst hab
    have hmem := (mem_parentSD db ab ev st s d).mpr ⟨hs, hd, hev, hst, hab⟩
    rw [h] at hmem
    exact List.not_mem_nil _ hmem
  constructor
  · rw [drillDownToLaps, insertionSort_eq_nil_iff, List.eq_nil_iff_forall_not_mem]
    intro x hx
    rw [List.mem_flatMap] at hx
    obtain ⟨l, _, hx⟩ := hx
    rw [List.mem_flatMap] at hx
    obtain ⟨s, hsmem, hx⟩ := hx
    rw [List.mem_map] at hx
    obtain ⟨d, hdmem, -⟩ := hx
    have hs := List.mem_filter.mp hsmem
    have hd := List.mem_filter.mp hdmem
    have hs2 := hs.2
    have hd2 := hd.2
    simp only [Bool.and_eq_true, beq_iff_eq] at hs2 hd2
    exact hnosd s d hs.1 hd.1 hs2.1.2 hs2.2 hd2.2
  · rw [drillDownToTelemetry, insertionSort_eq_nil_iff, List.eq_nil_iff_forall_not_mem]
    intro x hx
    rw [List.mem_flatMap] at hx
    obtain ⟨tr, _, hx⟩ := hx
    rw [List.mem_flatMap] at hx
    obtain ⟨l, _, hx⟩ := hx
    rw [List.mem_flatMap] at hx
    obtain ⟨s, hsmem, hx⟩ := hx
    rw [List.mem_map] at hx
    obtain ⟨d, hdmem, -⟩ := hx
    have hs := List.mem_filter.mp hsmem
    have hd := List.mem_filter.mp hdmem
    have hs2 := hs.2
    have hd2 := hd.2
    simp only [Bool.and_eq_true, beq_iff_eq] at hs2 hd2
    exact hnosd s d hs.1 hd.1 hs2.1.2 hs2.2 hd2.2

/-- Fixture for C7: a populated snapshot — one session, driver, result, lap
and telemetry row. -/
def c7db : DB where
  sessions := [⟨1, "Monaco Grand Prix", "Race", some 20250525, 1⟩]
  circuits := [⟨1, "Monaco"⟩]
  drivers := [⟨1, "VER", "Max", "Verstappen"⟩]
  teams := [⟨1, "Red Bull Racing"⟩]
  results := [⟨1, 1, 1, some 1, some 1, 25, some 78, "Finished"⟩]
  laps := [⟨1, 1, 1, some 1, some 78⟩]
  telemetry := [⟨1, 100, 250⟩]
  corners := [⟨1, 1, 100⟩]

/-- Modelled from the spec: the drill-down contract of sections 4.1 and 7 —
when the filter matches zero parent rows the operation fails with `NotFound`
(this behaviour is absent from the source, which exposes no error outcome). -/
def drillDownToLapsSpec (db : DB) (ab ev st : String) : Except String (List LapJRow) :=
  if parentSD db ab ev st = [] then .error "NotFound"
  else .ok (drillDownToLaps db ab ev st)

/-- Counterexample for C7: querying an abbreviation no driver has matches
zero parent rows, yet both drill-downs return the empty list — an ordinary
value, not a NotFound failure (which the spec-side contract would give). -/
theorem c7_counterexample :
    parentSD c7db "XXX" "Monaco" "R" = []
    ∧ drillDownToLaps c7db "XXX" "Monaco" "R" = []
    ∧ drillDownToTelemetry c7db "XXX" "Monaco" "R" 1 = []
    ∧ drillDownToLaps c7db "VER" "Monaco" "R" ≠ []
    ∧ drillDownToLapsSpec c7db "XXX" "Monaco" "R" = .error "NotFound" := by
  refine ⟨by decide, by decide, by decide, by decide, ?_⟩
  rw [drillDownToLapsSpec, if_pos (by decide)]

/-- Witness for C7 (amended) at the populated fixture with a non-matching
driver abbreviation. -/
theorem c7_drill_down_empty_on_empty_filter_witness :
    parentSD c7db "NOR" "Monaco" "R" = []
    ∧ drillDownToLaps c7db "NOR" "Monaco" "R" = []
    ∧ drillDownToTelemetry c7db "NOR" "Monaco" "R" 1 = [] := by
  refine ⟨by decide, ?_⟩
  have h := c7_drill_down_empty_on_empty_filter c7db "NOR" "Monaco" "R" 1 (by decide)
  exact h

/-- The distinct values of a list, keeping first appearances (the distinct
row/column keys of a pivot; pandas additionally sorts them, which only
permutes rows/columns of the matrix and leaves each (row, col) cell
unchanged, and no claim concerns key order). -/
def dedupF {α : Type} [BEq α] : List α → List α
  | [] => []
  | a :: t => a :: (dedupF t).filter (fun b => !(b == a))

lemma mem_of_mem_dedupF {α : Type} [BEq α] [LawfulBEq α] :
    ∀ (l : List α) (x : α), x ∈ dedupF l → x ∈ l := by
  intro l
  induction l with
  | nil => intro x hx; simpa [dedupF] using hx
  | cons a t ih =>
    intro x hx
    rcases List.mem_cons.mp hx with rfl | hx
    · exact List.mem_cons_self _ _
    · exact List.mem_cons_of_mem _ (ih x (List.mem_of_mem_filter hx))

/-- The pivot input values contributing to one (row-key, column-key) cell. -/
def cellInputs (rows : List (String × String × ℚ)) (r c : String) : List ℚ :=
  (rows.filter (fun t => t.1 == r && t.2.1 == c)).map (fun t => t.2.2)

/-- pandas aggfunc `first`. -/
def aggFirstQ (l : List ℚ) : ℚ := l.head?.getD 0

/-- pandas aggfunc `sum`. -/
def aggSumQ (l : List ℚ) : ℚ := l.sum

/-- pandas default aggfunc `mean`. -/
def aggMeanQ (l : List ℚ) : ℚ := l.sum / l.length

/-- One cell of `pandas.pivot_table`: the declared fill value when zero
source tuples match, otherwise the aggregation of the matching values
(`fill = none` models the absent/NaN cell of a pivot without fill_value). -/
def pivotCell (rows : List (String × String × ℚ)) (agg : List ℚ → ℚ)
    (fill : Option ℚ) (r c : String) : Option ℚ :=
  match cellInputs rows r c with
  | [] => fill
  | vs => some (agg vs)

/-- The distinct row keys of the pivot. -/
def rowKeysP (rows : List (String × String × ℚ)) : List String :=
  dedupF (rows.map (fun t => t.1))

/-- The distinct column keys of the pivot. -/
def colKeysP (rows : List (String × String × ℚ)) : List String :=
  dedupF (rows.map (fun t => t.2.1))

/-- The dense pivot matrix: one line per distinct row key, one cell per
distinct column key (`pivot_drivers_by_session` olap.py 362-383 uses
aggfunc first and no fill; `pivot_points_by_driver_and_year` olap.py
385-410 uses the default mean and fill_value 0). -/
def pivotTable (rows : List (String × String × ℚ)) (agg : List ℚ → ℚ)
    (fill : Option ℚ) : List (String × List (String × Option ℚ)) :=
  (rowKeysP rows).map (fun r =>
    (r, (colKeysP rows).map (fun c => (c, pivotCell rows agg fill r c))))

lemma lookupD_map_key {κ α : Type} [BEq κ] [LawfulBEq κ] (f : κ → α) :
    ∀ (ks : List κ) (k : κ), k ∈ ks →
      lookupD (ks.map (fun k => (k, f k))) k = some (f k) := by
  intro ks
  induction ks with
  | nil => intro k hk; simp at hk
  | cons a t ih =>
    intro k hk
    cases hak : a == k with
    | true =>
      have : a = k := eq_of_beq hak
      subst this
      simp [lookupD, List.find?]
    | false =>
      rcases List.mem_cons.mp hk with rfl | hmem
      · simp at hak
      · have hik := ih k hmem
        simpa [lookupD, List.find?_cons, hak] using hik

/-- The example input of the spec's pivot scenario:
[(VER, 2024, 575), (VER, 2025, 410), (NOR, 2025, 374)]. -/
def c8rows : List (String × String × ℚ) :=
  [("VER", "2024", 575), ("VER", "2025", 410), ("NOR", "2025", 374)]

/-- C8: a pivot cell with zero contributing tuples equals the declared fill
value whatever the aggregation policy; a cell with exactly one contributing
tuple equals that tuple's value under each of the three policies the source
uses (first, sum, mean); every (row-key, column-key) pair of the matrix
holds exactly the cell so characterised; and in the spec's example, pivoting
points by driver x year with fill 0 gives cell (NOR, 2024) = 0. -/
theorem c8_pivot_cell_semantics
    (rows : List (String × String × ℚ)) (fill : Option ℚ) (r c : String) :
    (cellInputs rows r c = [] → ∀ agg : List ℚ → ℚ, pivotCell rows agg fill r c = fill)
    ∧ (∀ v : ℚ, cellInputs rows r c = [v] →
        pivotCell rows aggFirstQ fill r c = some v
        ∧ pivotCell rows aggSumQ fill r c = some v
        ∧ pivotCell rows aggMeanQ fill r c = some v)
    ∧ (∀ agg : List ℚ → ℚ, r ∈ rowKeysP rows → ∃ line,
        lookupD (pivotTable rows agg fill) r = some line
        ∧ (c ∈ colKeysP rows → lookupD line c = some (pivotCell rows agg fill r c)))
    ∧ (∃ line, lookupD (pivotTable c8rows aggMeanQ (some 0)) "NOR" = some line
        ∧ lookupD line "2024" = some (some 0)) := by
  refine ⟨?_, ?_, ?_, ?_⟩
  · intro h agg
    unfold pivotCell
    rw [h]
  · intro v h
    refine ⟨?_, ?_, ?_⟩
    · unfold pivotCell
      rw [h]
      simp [aggFirstQ]
    · unfold pivotCell
      rw [h]
      simp [aggSumQ]
    · unfold pivotCell
      rw [h]
      simp [aggMeanQ]
  · intro agg hr
    refine ⟨(colKeysP rows).map (fun c => (c, pivotCell rows agg fill r c)), ?_, ?_⟩
    · rw [pivotTable]
      exact lookupD_map_key
        (fun r => (colKeysP rows).map (fun c => (c, pivotCell rows agg fill r c)))
        (rowKeysP rows) r hr
    · intro hc
      exact lookupD_map_key (fun c => pivotCell rows agg fill r c) (colKeysP rows) c hc
  · refine ⟨(colKeysP c8rows).map
      (fun c => (c, pivotCell c8rows aggMeanQ (some 0) "NOR" c)), ?_, ?_⟩
    · rw [pivotTable]
      exact lookupD_map_key
        (fun r => (colKeysP c8rows).map
          (fun c => (c, pivotCell c8rows aggMeanQ (some 0) r c)))
        (rowKeysP c8rows) "NOR" (by decide)
    · have h := lookupD_map_key
        (fun c => pivotCell c8rows aggMeanQ (some 0) "NOR" c) (colKeysP c8rows) "2024"
        (by decide)
      rw [h]
      have hcell : cellInputs c8rows "NOR" "2024" = [] := by decide
      simp [pivotCell, hcell]

/-- Witness for C8: in the example rows, cell (NOR, 2024) has zero
contributing tuples and equals the fill, while cell (VER, 2024) has the
single contributing tuple 575 and equals it under all three policies. -/
theorem c8_pivot_cell_semantics_witness :
    cellInputs c8rows "NOR" "2024" = []
    ∧ pivotCell c8rows aggFirstQ (some 0) "NOR" "2024" = some 0
    ∧ cellInputs c8rows "VER" "2024" = [575]
    ∧ pivotCell c8rows aggFirstQ (some 0) "VER" "2024" = some 575
    ∧ pivotCell c8rows aggSumQ (some 0) "VER" "2024" = some 575
    ∧ pivotCell c8rows aggMeanQ (some 0) "VER" "2024" = some 575 := by
  have h1 : cellInputs c8rows "NOR" "2024" = [] := by decide
  have h2 : cellInputs c8rows "VER" "2024" = [575] := by decide
  have hall := (c8_pivot_cell_semantics c8rows (some 0) "VER" "2024").2.1 575 h2
  exact ⟨h1, (c8_pivot_cell_semantics c8rows (some 0) "NOR" "2024").1 h1 aggFirstQ,
    h2, hall.1, hall.2.1, hall.2.2⟩

/-- The result rows of one session (`WHERE session_id = ?`). -/
def teamResultRows (db : DB) (sid : ℕ) : List ResultRow :=
  db.results.filter (fun r => r.sessionId == sid)

/-- `GROUP BY team_id` with the bare column `points` inside
`RANK() OVER (ORDER BY points DESC)` (team_rank.py 18-23): each team group
contributes ONE representative points value — SQLite documents a bare
column in an aggregate query as taken from an arbitrary row of the group —
so the representative chooser is a parameter. -/
def teamRepPoints (choose : List ℕ → ℕ) (rows : List ResultRow) : List (ℕ × ℕ) :=
  (dedupF (rows.map (fun r => r.teamId))).map
    (fun tid => (tid, choose ((rows.filter (fun r => r.teamId == tid)).map (fun r => r.points))))

/-- `RANK() OVER (ORDER BY p DESC)`: standard competition ranking — one plus
the number of entries with strictly larger value. -/
def rankOf (pairs : List (ℕ × ℕ)) (p : ℕ) : ℕ :=
  1 + (pairs.filter (fun q => p < q.2)).length

/-- The (team_id, rank) rows fetched per session by team_rank.py, with the
representative chooser as a parameter. -/
def sessionTeamRanksWith (choose : List ℕ → ℕ) (db : DB) (sid : ℕ) : List (ℕ × ℕ) :=
  let reps := teamRepPoints choose (teamResultRows db sid)
  reps.map (fun pr => (pr.1, rankOf reps pr.2))

/-- SQLite's de-facto value for a bare column under GROUP BY: the last row
of the group in scan order. -/
def lastValue (l : List ℕ) : ℕ := l.getLast?.getD 0

/-- The (team_id, rank) rows the source actually consumes. -/
def sessionTeamRanks (db : DB) (sid : ℕ) : List (ℕ × ℕ) :=
  sessionTeamRanksWith lastValue db sid

/-- Modelled from the spec: ranking of the per-team point TOTALS (the
claim's contract `resultsForSession(sessionId) -> (teamId, pointsSum)`
ranked descending), to be compared with the source's bare-column ranking. -/
def sessionTeamSumRanks (db : DB) (sid : ℕ) : List (ℕ × ℕ) :=
  let sums := (dedupF ((teamResultRows db sid).map (fun r => r.teamId))).map
    (fun tid => (tid,
      (((teamResultRows db sid).filter (fun r => r.teamId == tid)).map (fun r => r.points)).sum))
  sums.map (fun pr => (pr.1, rankOf sums pr.2))

/-- The inner loop of team_rank.py lines 15-28: starting from the sentinel
50, take the minimum rank over all sessions where the team appears. -/
def bestRankFor (db : DB) (tid : ℕ) : ℕ :=
  db.sessions.foldl (fun rk s =>
    match lookupD (sessionTeamRanks db s.id) tid with
    | some r => min rk r
    | none => rk) 50

/-- The `best_ranks` dict of team_rank.py, keyed by team name. -/
def bestRanks (db : DB) : List (String × ℕ) :=
  db.teams.foldl (fun m t => dictUpsert m t.name (bestRankFor db t.id)) []

/-- Fixture for C4: one session; team 1 has two results of 6 points each
(total 12), team 2 has results 11 and 0 (total 11), team 3 has 5 and 5
(total 10). -/
def c4db : DB where
  sessions := [⟨1, "GP", "Race", some 20250101, 1⟩]
  circuits := [⟨1, "X"⟩]
  drivers := []
  teams := [⟨1, "Alpha"⟩, ⟨2, "Beta"⟩, ⟨3, "Gamma"⟩]
  results := [⟨1, 1, 1, some 3, none, 6, none, ""⟩, ⟨1, 2, 1, some 4, none, 6, none, ""⟩,
              ⟨1, 3, 2, some 1, none, 11, none, ""⟩, ⟨1, 4, 2, some 8, none, 0, none, ""⟩,
              ⟨1, 5, 3, some 5, none, 5, none, ""⟩, ⟨1, 6, 3, some 6, none, 5, none, ""⟩]
  laps := []
  telemetry := []
  corners := []

/-- C4 is a code bug: the source ranks teams by a single result row's points
(SQLite bare column under GROUP BY), not by the per-team totals the claim
states.  On the fixture the totals give ranks Alpha 1, Beta 2, Gamma 3, but
the source's last-row representatives (6, 0, 5) give Alpha 1, Beta 3,
Gamma 2 — and the only other representative choice (Beta's first-row 11,
teams Alpha and Gamma have equal rows) gives Beta 1, Alpha 2, Gamma 3, so
EVERY admissible bare-column choice diverges from the claimed totals
ranking. -/
theorem c4_rank_uses_bare_points_not_sums :
    sessionTeamRanks c4db 1 = [(1, 1), (2, 3), (3, 2)]
    ∧ sessionTeamSumRanks c4db 1 = [(1, 1), (2, 2), (3, 3)]
    ∧ ((teamResultRows c4db 1).filter (fun r => r.teamId == 2)).map
        (fun r => r.points) = [11, 0]
    ∧ sessionTeamRanksWith (fun l => l.head?.getD 0) c4db 1 ≠ sessionTeamSumRanks c4db 1
    ∧ sessionTeamRanks c4db 1 ≠ sessionTeamSumRanks c4db 1 := by
  exact ⟨by decide, by decide, by decide, by decide, by decide⟩

lemma foldl_minUpdate_le (db : DB) (tid : ℕ) :
    ∀ (ss : List SessionRow) (acc : ℕ),
      ss.foldl (fun rk s =>
        match lookupD (sessionTeamRanks db s.id) tid with
        | some r => min rk r
        | none => rk) acc ≤ acc := by
  intro ss
  induction ss with
  | nil => intro acc; exact le_refl acc
  | cons s ss ih =>
    intro acc
    simp only [List.foldl_cons]
    rcases hl : lookupD (sessionTeamRanks db s.id) tid with _ | r
    · simpa [hl] using ih acc
    · have h1 := ih (min acc r)
      simp only [hl]
      exact le_trans h1 (min_le_left acc r)

lemma foldl_minUpdate_const (db : DB) (tid : ℕ) :
    ∀ (ss : List SessionRow) (acc : ℕ),
      (∀ s ∈ ss, lookupD (sessionTeamRanks db s.id) tid = none) →
      ss.foldl (fun rk s =>
        match lookupD (sessionTeamRanks db s.id) tid with
        | some r => min rk r
        | none => rk) acc = acc := by
  intro ss
  induction ss with
  | nil => intro acc _; rfl
  | cons s ss ih =>
    intro acc hn
    simp only [List.foldl_cons, hn s (List.mem_cons_self s ss)]
    exact ih acc (fun s' hs' => hn s' (List.mem_cons_of_mem _ hs'))

lemma lookupD_eq_none_of_no_key {κ α : Type} [BEq κ] [LawfulBEq κ]
    (m : List (κ × α)) (k : κ) (h : ∀ p ∈ m, p.1 ≠ k) : lookupD m k = none := by
  unfold lookupD
  rw [List.find?_eq_none.mpr]
  · rfl
  · intro p hp
    simpa using h p hp

lemma sessionTeamRanks_key_mem (db : DB) (sid : ℕ) (pr : ℕ × ℕ)
    (h : pr ∈ sessionTeamRanks db sid) :
    ∃ r ∈ db.results, r.sessionId = sid ∧ r.teamId = pr.1 := by
  unfold sessionTeamRanks sessionTeamRanksWith teamRepPoints at h
  simp only [List.mem_map] at h
  obtain ⟨q, hq, hEq⟩ := h
  obtain ⟨tid, htid, hq2⟩ := hq
  have hkey : pr.1 = tid := by
    rw [← hEq, ← hq2]
  have htid2 := mem_of_mem_dedupF _ tid htid
  obtain ⟨r, hr, hrEq⟩ := List.mem_map.mp htid2
  unfold teamResultRows at hr
  have hrf := List.mem_filter.mp hr
  refine ⟨r, hrf.1, by simpa using hrf.2, by rw [hkey, ← hrEq]⟩

/-- C10: every team's reported best rank is at most 50, the value for a team
with team names unique (as the loader guarantees) is present in the output
dict, and a team with no result row in any session keeps exactly the
sentinel 50 — indistinguishable from a genuinely achieved rank 50 and never
omitted. -/
theorem c10_best_rank_sentinel (db : DB)
    (hnd : (db.teams.map TeamRow.name).Nodup) :
    ∀ t ∈ db.teams,
      lookupD (bestRanks db) t.name = some (bestRankFor db t.id)
      ∧ bestRankFor db t.id ≤ 50
      ∧ ((∀ r ∈ db.results, r.teamId ≠ t.id) → bestRankFor db t.id = 50) := by
  intro t ht
  refine ⟨?_, ?_, ?_⟩
  · unfold bestRanks
    rw [foldl_dictUpsert_eq_append TeamRow.name (fun t => bestRankFor db t.id)
      db.teams [] hnd (by simp)]
    have h := lookupD_map_self TeamRow.name (fun t => bestRankFor db t.id) db.teams hnd t ht
    simpa using h
  · exact foldl_minUpdate_le db t.id db.sessions 50
  · intro hno
    unfold bestRankFor
    apply foldl_minUpdate_const
    intro s hs
    apply lookupD_eq_none_of_no_key
    intro p hp hkey
    obtain ⟨r, hr, -, hrt⟩ := sessionTeamRanks_key_mem db s.id p hp
    exact hno r hr (by rw [hrt, hkey])

/-- Fixture for C10: team 1 finishes a session (rank 1); team 2 has no
result row anywhere. -/
def c10db : DB where
  sessions := [⟨1, "GP", "Race", some 20250101, 1⟩]
  circuits := [⟨1, "X"⟩]
  drivers := []
  teams := [⟨1, "Alpha"⟩, ⟨2, "Beta"⟩]
  results := [⟨1, 1, 1, some 1, none, 25, none, ""⟩]
  laps := []
  telemetry := []
  corners := []

/-- Witness for C10: Beta has no result rows yet is present with the
sentinel 50; Alpha's entry is present and at most 50. -/
theorem c10_best_rank_sentinel_witness :
    (c10db.teams.map TeamRow.name).Nodup
    ∧ (⟨2, "Beta"⟩ : TeamRow) ∈ c10db.teams
    ∧ lookupD (bestRanks c10db) "Beta" = some (bestRankFor c10db 2)
    ∧ bestRankFor c10db 2 ≤ 50
    ∧ bestRankFor c10db 2 = 50
    ∧ lookupD (bestRanks c10db) "Alpha" = some 1 := by
  have h := c10_best_rank_sentinel c10db (by decide) ⟨2, "Beta"⟩ (by decide)
  exact ⟨by decide, by decide, h.1, h.2.1, h.2.2 (by decide), by decide⟩

/-- One output row of `roll_up_season_standings` (olap.py 273-302). -/
structure StandRow where
  driver : String
  fullName : String
  team : String
  races : ℕ
  totalPoints : ℕ
  wins : ℕ
  podiums : ℕ
  avgPosition : Option ℚ
deriving DecidableEq

/-- `ORDER BY total_points DESC, wins DESC`. -/
def standOrder (a b : StandRow) : Prop :=
  b.totalPoints < a.totalPoints ∨ (a.totalPoints = b.totalPoints ∧ b.wins ≤ a.wins)

instance : DecidableRel standOrder := fun a b =>
  inferInstanceAs (Decidable (_ ∨ _))

instance : IsTotal StandRow standOrder := by
  constructor
  intro a b
  unfold standOrder
  omega

instance : IsTrans StandRow standOrder := by
  constructor
  intro a b c hab hbc
  unfold standOrder at *
  omega

/-- `roll_up_season_standings` (olap.py 273-302): race-type rows of the
year (session_name LIKE '%R%'), grouped by (driver id, team id).  Note line
291: `COUNT(CASE WHEN r.position = 2 THEN 1 END) as podiums` — only
position 2 is counted. -/
def rollUpSeasonStandings (db : DB) (year : ℕ) : List StandRow :=
  let rows := (joinRSDT db).filter (fun r =>
    sqlLike r.sessionName "R" && strftimeYearMatch r.date year)
  let keys := dedupF (rows.map (fun r => (r.driverId, r.teamId)))
  List.insertionSort standOrder (keys.map (fun k =>
    let g := rows.filter (fun r => r.driverId == k.1 && r.teamId == k.2)
    let posList := g.filterMap (fun r => r.position)
    { driver := ((g.head?).map JRow.driver).getD ""
      fullName := ((g.head?).map (fun r => r.driverFirst ++ " " ++ r.driverLast)).getD ""
      team := ((g.head?).map JRow.team).getD ""
      races := (dedupF (g.map JRow.sessionId)).length
      totalPoints := (g.map JRow.points).sum
      wins := (g.filter (fun r => r.position == some 1)).length
      podiums := (g.filter (fun r => r.position == some 2)).length
      avgPosition :=
        if posList.isEmpty then none
        else some ((posList.map (fun n => (n : ℚ))).sum / posList.length) }))

/-- Spec-side podium row count: race rows of the year whose finishing
position is 1, 2 or 3. -/
def podiumRowCountSpec (db : DB) (year : ℕ) : ℕ :=
  ((joinRSDT db).filter (fun r =>
    sqlLike r.sessionName "R" && strftimeYearMatch r.date year
      && (r.position == some 1 || r.position == some 2 || r.position == some 3))).length

/-- Fixture for C5: one driver, three races of 2025, finishing 1st, 2nd and
3rd (25 + 18 + 15 points). -/
def c5db : DB where
  sessions := [⟨1, "A", "Race", some 20250301, 1⟩, ⟨2, "B", "Race", some 20250401, 1⟩,
               ⟨3, "C", "Race", some 20250501, 1⟩]
  circuits := [⟨1, "X"⟩]
  drivers := [⟨1, "VER", "Max", "Verstappen"⟩]
  teams := [⟨1, "Red Bull Racing"⟩]
  results := [⟨1, 1, 1, some 1, some 1, 25, some 57, "Finished"⟩,
              ⟨2, 1, 1, some 2, some 1, 18, some 57, "Finished"⟩,
              ⟨3, 1, 1, some 3, some 2, 15, some 57, "Finished"⟩]
  laps := []
  telemetry := []
  corners := []

/-- C5 is a code bug: win count is the count of position-1 rows (correct),
but the "podiums" column counts only position-2 rows (olap.py 291), so a
driver finishing 1st, 2nd and 3rd is credited 1 podium while the claim's
position ∈ {1,2,3} count is 3. -/
theorem c5_podium_count_defect :
    (rollUpSeasonStandings c5db 2025).map
      (fun r => (r.driver, r.totalPoints, r.wins, r.podiums)) = [("VER", 58, 1, 1)]
    ∧ podiumRowCountSpec c5db 2025 = 3
    ∧ (1 : ℕ) ≠ 3 :=
  ⟨by decide, by decide, by decide⟩

lemma mem_dictUpsert {κ α : Type} [BEq κ] [LawfulBEq κ] (m : List (κ × α)) (k : κ) (v : α)
    (p : κ × α) (h : p ∈ dictUpsert m k v) : p ∈ m ∨ p = (k, v) := by
  unfold dictUpsert at h
  split at h
  · obtain ⟨q, hq, hEq⟩ := List.mem_map.mp h
    by_cases hqk : (q.1 == k) = true
    · right
      rw [← hEq, if_pos hqk]
    · left
      rw [← hEq, if_neg hqk]
      exact hq
  · rcases List.mem_append.mp h with h2 | h2
    · left; exact h2
    · right; simpa using h2

lemma keys_nodup_dictUpsert {κ α : Type} [BEq κ] [LawfulBEq κ] (m : List (κ × α)) (k : κ)
    (v : α) (h : (m.map Prod.fst).Nodup) : ((dictUpsert m k v).map Prod.fst).Nodup := by
  unfold dictUpsert
  split
  · rw [List.map_map]
    have hsame : (m.map (Prod.fst ∘ fun p => if p.1 == k then (k, v) else p))
        = m.map Prod.fst := by
      apply List.map_congr_left
      intro q _
      by_cases hqk : (q.1 == k) = true
      · have hk := eq_of_beq hqk
        simp [hqk, hk]
      · simp [hqk]
    rw [hsame]
    exact h
  · rename_i hany
    rw [List.map_append]
    refine List.Nodup.append h (by simp) ?_
    intro a ha hb
    have hb' : a = k := by simpa using hb
    subst hb'
    obtain ⟨p, hp, hpk⟩ := List.mem_map.mp ha
    rw [Bool.not_eq_true, List.any_eq_false] at hany
    have hne : ¬ p.1 = a := by simpa using hany p hp
    exact hne hpk

/-- corner_speed.py lines 41-45: the driver rows whose abbreviation is VER
or NOR, collapsed into a Python dict abbreviation -> id (later rows win). -/
def vnDict (db : DB) : List (String × ℕ) :=
  (db.drivers.filter (fun d => d.abbrevation == "VER" || d.abbrevation == "NOR")).foldl
    (fun acc d => dictUpsert acc d.abbrevation d.id) []

lemma foldl_abbrevDict_mem :
    ∀ (ds : List DriverRow) (m : List (String × ℕ)) (p : String × ℕ),
    p ∈ ds.foldl (fun acc d => dictUpsert acc d.abbrevation d.id) m →
    p ∈ m ∨ ∃ d ∈ ds, p.1 = d.abbrevation ∧ p.2 = d.id := by
  intro ds
  induction ds with
  | nil =>
    intro m p hp
    left
    simpa using hp
  | cons d ds ih =>
    intro m p hp
    simp only [List.foldl_cons] at hp
    rcases ih (dictUpsert m d.abbrevation d.id) p hp with h | h
    · rcases mem_dictUpsert _ _ _ _ h with h2 | h2
      · left; exact h2
      · right
        exact ⟨d, List.mem_cons_self d ds, by rw [h2], by rw [h2]⟩
    · obtain ⟨d', hd', h1, h2⟩ := h
      right
      exact ⟨d', List.mem_cons_of_mem _ hd', h1, h2⟩

lemma foldl_abbrevDict_nodup :
    ∀ (ds : List DriverRow) (m : List (String × ℕ)),
    (m.map Prod.fst).Nodup →
    ((ds.foldl (fun acc d => dictUpsert acc d.abbrevation d.id) m).map Prod.fst).Nodup := by
  intro ds
  induction ds with
  | nil => intro m h; simpa using h
  | cons d ds ih =>
    intro m h
    simp only [List.foldl_cons]
    exact ih (dictUpsert m d.abbrevation d.id) (keys_nodup_dictUpsert m d.abbrevation d.id h)

lemma vnDict_props (db : DB) :
    ((vnDict db).map Prod.fst).Nodup
    ∧ ∀ p ∈ vnDict db, (p.1 = "VER" ∨ p.1 = "NOR")
        ∧ ∃ d ∈ db.drivers, d.abbrevation = p.1 ∧ d.id = p.2 := by
  constructor
  · exact foldl_abbrevDict_nodup _ [] (by simp)
  · intro p hp
    rcases foldl_abbrevDict_mem _ [] p hp with h | h
    · simp at h
    · obtain ⟨d, hd, h1, h2⟩ := h
      have hdf := List.mem_filter.mp hd
      have hcond := hdf.2
      simp only [Bool.or_eq_true, beq_iff_eq] at hcond
      constructor
      · rcases hcond with hc | hc
        · left; rw [h1, hc]
        · right; rw [h1, hc]
      · exact ⟨d, hdf.1, h1.symm, h2.symm⟩

lemma vnDict_two_keys (db : DB) (h2 : ¬ (vnDict db).length < 2) :
    (∃ d ∈ db.drivers, d.abbrevation = "VER")
    ∧ (∃ d ∈ db.drivers, d.abbrevation = "NOR") := by
  obtain ⟨hnd, hmem⟩ := vnDict_props db
  rcases hm : vnDict db with _ | ⟨p, rest⟩
  · rw [hm] at h2; simp at h2
  · rcases rest with _ | ⟨q, rest2⟩
    · rw [hm] at h2; simp at h2
    · rw [hm] at hnd hmem
      have hp := hmem p (List.mem_cons_self _ _)
      have hq := hmem q (List.mem_cons_of_mem _ (List.mem_cons_self _ _))
      have hpq : p.1 ≠ q.1 := by
        simp only [List.map_cons, List.nodup_cons, List.mem_cons] at hnd
        intro hEq
        exact hnd.1 (Or.inl hEq)
      have hVd : ∀ pr : String × ℕ, pr.1 = "VER" →
          (∃ d ∈ db.drivers, d.abbrevation = pr.1 ∧ d.id = pr.2) →
          ∃ d ∈ db.drivers, d.abbrevation = "VER" := by
        intro pr hpr ⟨d, hd, h1, _⟩
        exact ⟨d, hd, by rw [h1, hpr]⟩
      have hNd : ∀ pr : String × ℕ, pr.1 = "NOR" →
          (∃ d ∈ db.drivers, d.abbrevation = pr.1 ∧ d.id = pr.2) →
          ∃ d ∈ db.drivers, d.abbrevation = "NOR" := by
        intro pr hpr ⟨d, hd, h1, _⟩
        exact ⟨d, hd, by rw [h1, hpr]⟩
      rcases hp.1 with hv | hn
      · rcases hq.1 with hv2 | hn2
        · exact absurd (hv.trans hv2.symm) hpq
        · exact ⟨hVd p hv hp.2, hNd q hn2 hq.2⟩
      · rcases hq.1 with hv2 | hn2
        · exact ⟨hVd q hv2 hq.2, hNd p hn hp.2⟩
        · exact absurd (hn.trans hn2.symm) hpq

lemma mem_of_lookupD_eq_some {κ α : Type} [BEq κ] [LawfulBEq κ]
    (m : List (κ × α)) (k : κ) (v : α) (h : lookupD m k = some v) : (k, v) ∈ m := by
  unfold lookupD at h
  cases hf : m.find? (fun p => p.1 == k) with
  | none => rw [hf] at h; simp at h
  | some p =>
    rw [hf] at h
    have hm := List.mem_of_find?_eq_some hf
    have hp := List.find?_some hf
    obtain ⟨p1, p2⟩ := p
    have hk : p1 = k := by simpa using hp
    have hv : p2 = v := by simpa using h
    subst hk
    subst hv
    exact hm

/-- corner_speed.py lines 24-38: the first row of
`sessions JOIN circuits ON s.circuit_id = c.id` matching the year, event
and session-name patterns; the join requires the session's circuit to
exist, and the circuit id it returns equals the session's circuit_id. -/
def findSession (db : DB) (year : ℕ) (event stype : String) : Option (ℕ × ℕ) :=
  (db.sessions.find? (fun s =>
    strftimeYearMatch s.date year && sqlLike s.eventName event &&
      sqlLike s.sessionName stype && db.circuits.any (fun c => c.id == s.circuitId))).map
    (fun s => (s.id, s.circuitId))

/-- `ORDER BY lap_time ASC` key comparison on the TEXT lap_time column:
NULL sorts before every value. -/
def lapKeyLT (a b : Option ℚ) : Bool :=
  match a, b with
  | none, none => false
  | none, some _ => true
  | some _, none => false
  | some x, some y => decide (x < y)

/-- The row a `ORDER BY key ASC LIMIT 1` fetch returns: a row with minimal
key (the leftmost one; SQLite leaves the choice among ties unspecified). -/
def pickMinLap : List LapRow → Option LapRow
  | [] => none
  | l :: ls =>
    match pickMinLap ls with
    | none => some l
    | some m => some (if lapKeyLT m.lapTime l.lapTime then m else l)

/-- corner_speed.py lines 54-68: the fastest-lap id of a driver in a
session, `None` when the driver has no laps there. -/
def fastestLap (db : DB) (sid did : ℕ) : Option ℕ :=
  (pickMinLap (db.laps.filter (fun l => l.sessionId == sid && l.driverId == did))).map
    (fun l => l.id)

lemma fastestLap_eq_none_iff (db : DB) (sid did : ℕ) :
    fastestLap db sid did = none
      ↔ db.laps.filter (fun l => l.sessionId == sid && l.driverId == did) = [] := by
  unfold fastestLap
  rcases hl : db.laps.filter (fun l => l.sessionId == sid && l.driverId == did)
    with _ | ⟨l, ls⟩
  · rw [hl]
    simp [pickMinLap]
  · rw [hl]
    cases hm : pickMinLap ls with
    | none => simp [pickMinLap, hm]
    | some m => simp [pickMinLap, hm]

/-- Corner-distance order (for `ORDER BY distance ASC`). -/
def cornerDistLE (a b : Corner) : Prop := a.dist ≤ b.dist

instance : DecidableRel cornerDistLE := fun a b =>
  inferInstanceAs (Decidable (a.dist ≤ b.dist))

/-- Sample-distance order (for `ORDER BY distance ASC`). -/
def sampleDistLE (a b : Sample) : Prop := a.dist ≤ b.dist

instance : DecidableRel sampleDistLE := fun a b =>
  inferInstanceAs (Decidable (a.dist ≤ b.dist))

/-- corner_speed.py lines 77-83: the circuit's corners by distance. -/
def cornersFor (db : DB) (cid : ℕ) : List Corner :=
  List.insertionSort cornerDistLE
    ((db.corners.filter (fun c => c.circuitId == cid)).map (fun c => ⟨c.number, c.dist⟩))

/-- corner_speed.py lines 86-96: a lap's telemetry by distance. -/
def telForLap (db : DB) (lid : ℕ) : List Sample :=
  List.insertionSort sampleDistLE
    ((db.telemetry.filter (fun t => t.lapId == lid)).map (fun t => ⟨t.dist, t.speed⟩))

/-- corner_speed.py lines 98-130 applied to the fetched data: the per-corner
dict for the two drivers plus the overall mean speeds. -/
def analysisCore (corners : List Corner) (telV telN : List Sample) :
    (List (ℕ × (Option ℚ × Option ℚ))) × (Option ℚ × Option ℚ) :=
  (avgCornerSpeeds corners telV telN,
   (meanOpt (telV.map Sample.speed), meanOpt (telN.map Sample.speed)))

/-- `get_session_corner_analysis` (corner_speed.py 6-130): resolve the
session, the two fixed drivers VER and NOR, their fastest laps, then run the
corner analysis; each `raise ValueError` becomes an `Except.error`. -/
def getSessionCornerAnalysis (db : DB) (year : ℕ) (event stype : String) :
    Except String ((List (ℕ × (Option ℚ × Option ℚ))) × (Option ℚ × Option ℚ)) :=
  match findSession db year event stype with
  | none => .error "Session not found"
  | some sc =>
    if (vnDict db).length < 2 then .error "Could not find both VER and NOR drivers"
    else
      match lookupD (vnDict db) "VER", lookupD (vnDict db) "NOR" with
      | some verId, some norId =>
        (match fastestLap db sc.1 verId, fastestLap db sc.1 norId with
         | some vl, some nl =>
           .ok (analysisCore (cornersFor db sc.2) (telForLap db vl) (telForLap db nl))
         | _, _ => .error "Could not find fastest laps for one or both drivers")
      | _, _ => .error "KeyError"

/-- Is the outcome an error? -/
def isError {ε α : Type} : Except ε α → Bool
  | .error _ => true
  | .ok _ => false

lemma isError_false_iff {ε α : Type} (e : Except ε α) :
    isError e = false ↔ ∃ a, e = .ok a := by
  cases e <;> simp [isError]

lemma getSCA_ok_inversion (db : DB) (year : ℕ) (event stype : String)
    (out : (List (ℕ × (Option ℚ × Option ℚ))) × (Option ℚ × Option ℚ))
    (hout : getSessionCornerAnalysis db year event stype = .ok out) :
    ∃ sid cid verId norId vl nl,
      findSession db year event stype = some (sid, cid)
      ∧ lookupD (vnDict db) "VER" = some verId
      ∧ lookupD (vnDict db) "NOR" = some norId
      ∧ fastestLap db sid verId = some vl
      ∧ fastestLap db sid norId = some nl
      ∧ out = analysisCore (cornersFor db cid) (telForLap db vl) (telForLap db nl) := by
  unfold getSessionCornerAnalysis at hout
  split at hout
  · exact absurd hout (by simp)
  · rename_i sc hf
    split at hout
    · exact absurd hout (by simp)
    · split at hout
      · rename_i verId norId hv hn
        split at hout
        · rename_i vl nl hfv hfn
          refine ⟨sc.1, sc.2, verId, norId, vl, nl, ?_, hv, hn, hfv, hfn, ?_⟩
          · rw [hf]
          · simpa using hout.symm
        · exact absurd hout (by simp)
      · exact absurd hout (by simp)

/-- C9: the engine always compares exactly the fixed drivers VER and NOR —
(1) it fails whenever the driver relation lacks either abbreviation,
(2) it fails whenever either driver has no lap in the resolved session, and
(3) every successful result is the corner analysis of the fastest laps of
the drivers resolved from the abbreviations VER and NOR, never of any other
driver. -/
theorem c9_fixed_drivers (db : DB) (year : ℕ) (event stype : String) :
    (((¬ ∃ d ∈ db.drivers, d.abbrevation = "VER")
        ∨ (¬ ∃ d ∈ db.drivers, d.abbrevation = "NOR")) →
      isError (getSessionCornerAnalysis db year event stype) = true)
    ∧ (∀ sid cid verId norId,
        findSession db year event stype = some (sid, cid) →
        lookupD (vnDict db) "VER" = some verId →
        lookupD (vnDict db) "NOR" = some norId →
        (fastestLap db sid verId = none ∨ fastestLap db sid norId = none) →
        isError (getSessionCornerAnalysis db year event stype) = true)
    ∧ (∀ out, getSessionCornerAnalysis db year event stype = .ok out →
        ∃ sid cid verId norId vl nl,
          findSession db year event stype = some (sid, cid)
          ∧ lookupD (vnDict db) "VER" = some verId
          ∧ lookupD (vnDict db) "NOR" = some norId
          ∧ (∃ d ∈ db.drivers, d.abbrevation = "VER" ∧ d.id = verId)
          ∧ (∃ d ∈ db.drivers, d.abbrevation = "NOR" ∧ d.id = norId)
          ∧ fastestLap db sid verId = some vl
          ∧ fastestLap db sid norId = some nl
          ∧ out = analysisCore (cornersFor db cid) (telForLap db vl) (telForLap db nl)) := by
  refine ⟨?_, ?_, ?_⟩
  · intro h
    unfold getSessionCornerAnalysis
    split
    · rfl
    · have hlen : (vnDict db).length < 2 := by
        by_contra hlen
        obtain ⟨hV, hN⟩ := vnDict_two_keys db hlen
        rcases h with h | h
        · exact h hV
        · exact h hN
      rw [if_pos hlen]
      rfl
  · intro sid cid verId norId hf hv hn hlap
    cases hie : isError (getSessionCornerAnalysis db year event stype)
    · exfalso
      obtain ⟨out, hout⟩ := (isError_false_iff _).mp hie
      obtain ⟨sid', cid', verId', norId', vl, nl, hf', hv', hn', hfv, hfn, -⟩ :=
        getSCA_ok_inversion db year event stype out hout
      rw [hf] at hf'
      have hsid : sid = sid' ∧ cid = cid' := by
        simpa [Prod.ext_iff] using (Option.some.injEq _ _).mp hf'
      have hver : verId = verId' := by
        rw [hv] at hv'
        exact (Option.some.injEq _ _).mp hv'
      have hnor : norId = norId' := by
        rw [hn] at hn'
        exact (Option.some.injEq _ _).mp hn'
      rcases hlap with h | h
      · rw [hsid.1, hver] at h
        rw [h] at hfv
        exact Option.noConfusion hfv
      · rw [hsid.1, hnor] at h
        rw [h] at hfn
        exact Option.noConfusion hfn
    · rfl
  · intro out hout
    obtain ⟨sid, cid, verId, norId, vl, nl, hf, hv, hn, hfv, hfn, hEq⟩ :=
      getSCA_ok_inversion db year event stype out hout
    have hVmem := (vnDict_props db).2 ("VER", verId)
      (mem_of_lookupD_eq_some _ _ _ hv)
    have hNmem := (vnDict_props db).2 ("NOR", norId)
      (mem_of_lookupD_eq_some _ _ _ hn)
    exact ⟨sid, cid, verId, norId, vl, nl, hf, hv, hn, hVmem.2, hNmem.2, hfv, hfn, hEq⟩

/-- Fixture for C9: the driver relation lacks NOR. -/
def c9dbNoNor : DB where
  sessions := [⟨1, "Monaco Grand Prix", "Race", some 20250525, 1⟩]
  circuits := [⟨1, "Monaco"⟩]
  drivers := [⟨1, "VER", "Max", "Verstappen"⟩]
  teams := []
  results := []
  laps := []
  telemetry := []
  corners := []

/-- Fixture for C9: both drivers exist but VER has no lap in the session. -/
def c9dbNoLaps : DB where
  sessions := [⟨1, "Monaco Grand Prix", "Race", some 20250525, 1⟩]
  circuits := [⟨1, "Monaco"⟩]
  drivers := [⟨1, "VER", "Max", "Verstappen"⟩, ⟨2, "NOR", "Lando", "Norris"⟩]
  teams := []
  results := []
  laps := [⟨10, 1, 2, some 1, some 78⟩]
  telemetry := []
  corners := []

/-- Fixture for C9: a fully populated snapshot. -/
def c9dbFull : DB where
  sessions := [⟨1, "Monaco Grand Prix", "Race", some 20250525, 1⟩]
  circuits := [⟨1, "Monaco"⟩]
  drivers := [⟨1, "VER", "Max", "Verstappen"⟩, ⟨2, "NOR", "Lando", "Norris"⟩]
  teams := []
  results := []
  laps := [⟨10, 1, 1, some 1, some 78⟩, ⟨20, 1, 2, some 1, some 79⟩]
  telemetry := [⟨10, 100, 250⟩, ⟨20, 100, 240⟩]
  corners := [⟨1, 1, 100⟩]

/-- Witness for C9: missing NOR errors; a lapless VER errors; and a full
snapshot succeeds with exactly the two fixed drivers' fastest laps. -/
theorem c9_fixed_drivers_witness :
    isError (getSessionCornerAnalysis c9dbNoNor 2025 "Monaco" "R") = true
    ∧ isError (getSessionCornerAnalysis c9dbNoLaps 2025 "Monaco" "R") = true
    ∧ getSessionCornerAnalysis c9dbFull 2025 "Monaco" "R"
        = .ok (analysisCore (cornersFor c9dbFull 1) (telForLap c9dbFull 10)
            (telForLap c9dbFull 20))
    ∧ ∃ sid cid verId norId vl nl,
        findSession c9dbFull 2025 "Monaco" "R" = some (sid, cid)
        ∧ lookupD (vnDict c9dbFull) "VER" = some verId
        ∧ lookupD (vnDict c9dbFull) "NOR" = some norId
        ∧ (∃ d ∈ c9dbFull.drivers, d.abbrevation = "VER" ∧ d.id = verId)
        ∧ (∃ d ∈ c9dbFull.drivers, d.abbrevation = "NOR" ∧ d.id = norId)
        ∧ fastestLap c9dbFull sid verId = some vl
        ∧ fastestLap c9dbFull sid norId = some nl
        ∧ analysisCore (cornersFor c9dbFull 1) (telForLap c9dbFull 10) (telForLap c9dbFull 20)
            = analysisCore (cornersFor c9dbFull cid) (telForLap c9dbFull vl)
                (telForLap c9dbFull nl) := by
  have hout : getSessionCornerAnalysis c9dbFull 2025 "Monaco" "R"
      = .ok (analysisCore (cornersFor c9dbFull 1) (telForLap c9dbFull 10)
          (telForLap c9dbFull 20)) := rfl
  refine ⟨?_, ?_, hout, ?_⟩
  · exact (c9_fixed_drivers c9dbNoNor 2025 "Monaco" "R").1 (Or.inr (by decide))
  · exact (c9_fixed_drivers c9dbNoLaps 2025 "Monaco" "R").2.1 1 1 1 2
      (by decide) (by decide) (by decide) (Or.inl (by decide))
  · obtain ⟨sid, cid, verId, norId, vl, nl, h1, h2, h3, h4, h5, h6, h7, h8⟩ :=
      (c9_fixed_drivers c9dbFull 2025 "Monaco" "R").2.2 _ hout
    exact ⟨sid, cid, verId, norId, vl, nl, h1, h2, h3, h4, h5, h6, h7, h8⟩
